import Mathlib

/-!
Verification of the `testcli` assertion/execution engine
(`pkg/engine/test.go`, `pkg/engine/execution.go`,
`pkg/engine/teststorage/safemap.go`).

The Go code is shallowly embedded: Go strings are Lean `String`s, a Go
`error` value is `Option String` (`none` = nil), the key-value store is an
association list, and the external collaborators (the `regexp` engine and
the filesystem walk of `filepath.Walk`) are explicit function parameters.
A Go runtime panic (nil-pointer dereference) is modelled by the
`GoResult.panicked` constructor, and the unbounded recursion of
`FindBinaryPath` is modelled with explicit fuel.
-/

namespace Testcli

/-- Boolean test that `p` is a prefix of `s`, embedding `strings.HasPrefix`
at the character-list level. -/
def listIsPre : List Char → List Char → Bool
  | [], _ => true
  | _ :: _, [] => false
  | a :: as, b :: bs => a = b && listIsPre as bs

/-- Boolean test that `pat` occurs as a contiguous substring of `cs`,
embedding `strings.Contains` at the character-list level. -/
def listOccurs (pat : List Char) : List Char → Bool
  | [] => listIsPre pat []
  | c :: rest => listIsPre pat (c :: rest) || listOccurs pat rest

/-- Embedding of Go `strings.HasPrefix s p`. -/
def strStartsWith (s p : String) : Bool := listIsPre p.data s.data

/-- Embedding of Go `strings.Contains s sub`. -/
def strContains (s sub : String) : Bool := listOccurs sub.data s.data

/-- Replace the first occurrence of `pat` (non-empty) by `rep` in `cs`,
embedding `strings.Replace(s, pat, rep, 1)` at the character-list level. -/
def replaceFirstAux (pat rep : List Char) : List Char → List Char
  | [] => []
  | c :: rest =>
    if listIsPre pat (c :: rest) then rep ++ (c :: rest).drop pat.length
    else c :: replaceFirstAux pat rep rest

/-- Embedding of Go `strings.Replace(s, pat, rep, 1)`. -/
def replaceFirst (s pat rep : String) : String :=
  ⟨replaceFirstAux pat.data rep.data s.data⟩

/-- The shared key-value store (`teststorage.SafeMap`): a string-to-string
map, embedded as an association list. Locking is irrelevant to the
sequential semantics modelled here. -/
def Storage := List (String × String)

/-- Embedding of `SafeMap.Get`: the stored value and whether it was found,
as an `Option`. -/
def Storage.get (s : Storage) (k : String) : Option String := List.lookup k s

/-- `Assertion` from `test.go`: positive or negative expectations on one
stream. -/
structure Assertion where
  Output : List String := []
  Errors : List String := []
  Dynamic : List String := []
  Strict : Bool := false
  Pattern : List String := []
deriving Repr, DecidableEq

/-- `Assertions` from `test.go`: the whole assertion specification of a
test case. -/
structure Assertions where
  WantErr : Bool := false
  CanError : Bool := false
  CanErrorWithMessage : List String := []
  Must : Assertion := {}
  Not : Assertion := {}
deriving Repr, DecidableEq

/-- The aggregate error built by `NewPrefixedError`: a label plus the list
of underlying cause messages (`errors.Join` preserves every cause). -/
structure PrefixedError where
  label : String
  causes : List String
deriving Repr, DecidableEq

/-- Result of a Go computation that can end in a runtime panic. -/
inductive GoResult (α : Type) where
  | ok (val : α)
  | panicked
deriving Repr, DecidableEq

/-- A compiled regular expression, abstracted to its `FindStringIndex`
behaviour: the match location in a subject string, if any. -/
def Regex := String → Option (Nat × Nat)

/-- Error messages accumulated by the loop of `assertWanted` in `test.go`:
in strict mode each expected string must equal stdout exactly, otherwise
it must be contained in stdout. -/
def wantedErrs (out : String) (strict : Bool) : List String → List String
  | [] => []
  | want :: rest =>
    (if strict = true ∧ ¬ out = want then
      [s!"strict match got \x22{out}\x22 want \x22{want}\x22"] else []) ++
    (if strict = false ∧ strContains out want = false then
      [s!"did not find \x22{want}\x22 in standard output: \x22{out}\x22"] else []) ++
    wantedErrs out strict rest

/-- Embedding of `assertWanted` from `test.go`. -/
def assertWanted (out : String) (w : Assertion) : Option PrefixedError :=
  let errs := wantedErrs out w.Strict w.Output
  if errs.length > 0 then some ⟨"must find", errs⟩ else none

/-- Loop body of `assertPattern` from `test.go`. For each pattern the code
compiles it and then unconditionally calls `re.FindStringIndex(out)`; when
compilation failed `re` is the nil pointer, so the call dereferences nil
and panics (`none` here). On success the accumulated error messages are
returned. -/
def patternErrs (compile : String → Option Regex) (out : String) :
    List String → Option (List String)
  | [] => some []
  | pattern :: rest =>
    match compile pattern with
    | none => none
    | some re =>
      let e :=
        if re out = none then
          [s!"could not match pattern \x22{pattern}\x22 to standard output: \x22{out}\x22"]
        else []
      (patternErrs compile out rest).map (fun tail => e ++ tail)

/-- Embedding of `assertPattern` from `test.go`, with the regular
expression compiler passed in as the external `regexp` collaborator. -/
def assertPattern (compile : String → Option Regex) (out : String)
    (patterns : List String) : GoResult (Option PrefixedError) :=
  match patternErrs compile out patterns with
  | none => .panicked
  | some errs =>
    .ok (if errs.length > 0 then some ⟨"must find pattern", errs⟩ else none)

/-- Error messages accumulated by the loop of `assertErrors` in `test.go`. -/
def errorsErrs (stderr : String) : List String → List String
  | [] => []
  | want :: rest =>
    (if strContains stderr want = false then
      [s!"did not find \x22{want}\x22 in standard error: \x22{stderr}\x22"] else []) ++
    errorsErrs stderr rest

/-- Embedding of `assertErrors` from `test.go`. -/
def assertErrors (stderr : String) (errrs : List String) : Option PrefixedError :=
  let errs := errorsErrs stderr errrs
  if errs.length > 0 then some ⟨"must find errors", errs⟩ else none

/-- Error messages accumulated by the loop of `assertDynamic` in `test.go`:
the expected value is the stored value of the key when present, and the
key itself otherwise. -/
def dynamicErrs (out : String) (storage : Storage) : List String → List String
  | [] => []
  | key :: rest =>
    let value := (storage.get key).getD key
    (if strContains out value = false then
      [s!"did not find dynamic key \x22{key}\x22 with value \x22{value}\x22 in standard output: \x22{out}\x22"]
    else []) ++
    dynamicErrs out storage rest

/-- Embedding of `assertDynamic` from `test.go`. -/
def assertDynamic (out : String) (dynamic : List String) (storage : Storage) :
    Option PrefixedError :=
  let errs := dynamicErrs out storage dynamic
  if errs.length > 0 then
    some ⟨"must find values from dynamic storage", errs⟩
  else none

/-- Error messages accumulated by the two loops of `assertMustNot` in
`test.go`. -/
def mustNotErrs (out stderr : String) (not : Assertion) : List String :=
  (not.Output.flatMap fun mustNot =>
    (if not.Strict = true ∧ out = mustNot then
      [s!"strict match got \x22{out}\x22 must not: \x22{mustNot}\x22"] else []) ++
    (if not.Strict = false ∧ strContains out mustNot = true then
      [s!"found \x22{mustNot}\x22 in standard output: \x22{out}\x22"] else [])) ++
  (not.Errors.flatMap fun mustNot =>
    if strContains stderr mustNot = true then
      [s!"found \x22{mustNot}\x22 in standard error:\x22{stderr}\x22"] else [])

/-- Embedding of `assertMustNot` from `test.go`. -/
def assertMustNot (out stderr : String) (not : Assertion) : Option PrefixedError :=
  let errs := mustNotErrs out stderr not
  if errs.length > 0 then some ⟨"must not find values", errs⟩ else none

/-- The error returned by `Assertions.Ensure`: either the immediate
error-expectation failure (embedding the rendered command line, the actual
error, the `WantErr` flag and the captured stderr), or the aggregated
assertion failures. -/
inductive EnsureError where
  | errCheck (args : String) (err : Option String) (wantErr : Bool) (stderr : String)
  | assertion (errs : List PrefixedError)
deriving Repr, DecidableEq

/-- Embedding of `Assertions.Ensure` from `test.go`. The buffers are the
captured stdout and stderr strings; `err` is the command execution error;
`compile` is the external regular-expression compiler used by the pattern
check. -/
def Assertions.Ensure (compile : String → Option Regex) (a : Assertions)
    (stdout stderr : String) (err : Option String) (storage : Storage)
    (args : String) : GoResult (Option EnsureError) :=
  if (err.isSome ≠ a.WantErr) ∧ a.CanError = false ∧ a.CanErrorWithMessage.length = 0 then
    .ok (some (.errCheck args err a.WantErr stderr))
  else if a.CanErrorWithMessage.any (fun knownFailure => strContains stderr knownFailure) then
    .ok none
  else
    match assertPattern compile stdout a.Must.Pattern with
    | .panicked => .panicked
    | .ok patternErr =>
      let errs :=
        (assertWanted stdout a.Must).toList ++ patternErr.toList ++
        (assertErrors stderr a.Must.Errors).toList ++
        (assertDynamic stdout a.Must.Dynamic storage).toList ++
        (assertMustNot stdout stderr a.Not).toList
      if errs.length > 0 then .ok (some (.assertion errs)) else .ok none

/-- The guard of the loop body of `parseDynamicArguments` in
`execution.go`: the token is treated as a literal when it starts with `-`
or with the strip marker. -/
def isPrefixedKey (key : String) : Bool :=
  strStartsWith key "-" || strStartsWith key "strip_"

/-- The literal value passed through for a prefixed token: the first
occurrence of the strip marker is removed when the token starts with it. -/
def stripKey (key : String) : String :=
  if strStartsWith key "strip_" then replaceFirst key "strip_" "" else key

/-- Embedding of `parseDynamicArguments` from `execution.go`. The loop is
rendered as structural recursion over the token list; an absent key aborts
the whole resolution with the error of the Go `fmt.Errorf`. -/
def parseDynamicArguments (dynamicArgs : List String) (storage : Storage) :
    Except String (List String) :=
  match dynamicArgs with
  | [] => .ok []
  | key :: rest =>
    if isPrefixedKey key then
      match parseDynamicArguments rest storage with
      | .error e => .error e
      | .ok result => .ok (stripKey key :: result)
    else
      match storage.get key with
      | none => .error s!"failed to obtain value of key {key}"
      | some value =>
        match parseDynamicArguments rest storage with
        | .error e => .error e
        | .ok result => .ok (value :: result)

/-- Embedding of `FindBinaryPath` from `execution.go`. A directory is a
list of path components from the filesystem root, so the root is `[]` and
`filepath.Dir` is `dropLast` (which fixes the root, as `Dir("/") = "/"`).
The `filepath.Walk` traversal is the external collaborator `walk`,
returning the relative path of the first non-directory file named `binary`
in the subtree of its argument, or `none` when the subtree has no such
file. The Go function recurses without bound; `fuel` counts the remaining
recursion depth and `none` means the fuel ran out before the function
returned. -/
def findBinaryPathFuel (walk : List String → String → Option String)
    (binary : String) : Nat → List String → Option String
  | 0, _ => none
  | fuel + 1, p =>
    match walk p binary with
    | some relPath => some relPath
    | none =>
      (findBinaryPathFuel walk binary fuel p.dropLast).map
        (fun sub => "../" ++ sub)

/-- The observable behaviour of one command execution, standing in for the
operating-system process: whether the stdin pipe opens, the result of
`cmd.Start`, the result of `cmd.Run`, the result of `cmd.Wait`, and the
captured output buffers. -/
structure CmdModel where
  pipeOk : Bool := true
  startErr : Option String := none
  runErr : Option String := none
  waitErr : Option String := none
  stdout : String := ""
  stderr : String := ""
deriving Repr, DecidableEq

/-- The failure state of the host `testing.T` after a call: whether
`t.Errorf` was called (a non-fatal failure: the case is marked failed but
execution continues) and whether `t.Fatalf` was called (a fatal failure
aborting the case). -/
structure TState where
  errored : Bool
  fatal : Bool
deriving Repr, DecidableEq

/-- Embedding of `runCommand` from `execution.go`. Returns the resulting
`testing.T` failure state and, unless `t.Fatalf` aborted the call
(`none`), the stdout buffer, the stderr buffer and the returned error.
When the process was never started, `cmd.Wait` reports a not-started
error. -/
def runCommand (proc : CmdModel) (interactive : List String)
    (wantErr : Bool) : TState × Option (String × String × Option String) :=
  if interactive.length = 0 then
    (⟨false, false⟩, some (proc.stdout, proc.stderr, proc.runErr))
  else if proc.pipeOk = false then
    (⟨false, true⟩, none)
  else if proc.startErr.isSome ≠ wantErr then
    (⟨true, false⟩, some (proc.stdout, proc.stderr, proc.startErr))
  else
    (⟨false, false⟩,
      some (proc.stdout, proc.stderr,
        if proc.startErr.isSome then some "exec: not started" else proc.waitErr))

/-- Greedy match of `[^ ]+` at the head of `cs` (the value part of the
redaction pattern): consumes one or more characters other than a space and
returns the remainder. -/
def matchVal : List Char → Option (List Char)
  | [] => none
  | c :: rest =>
    if c = ' ' then none else some (rest.dropWhile (fun x => ¬ x = ' '))

/-- Match of `[ =]` followed by `[^ ]+` at the head of `cs`. -/
def matchSepVal : List Char → Option (List Char)
  | [] => none
  | c :: rest => if c = ' ' ∨ c = '=' then matchVal rest else none

/-- Match of the pattern `\-\-pass?[ =]([^ ]+)` of `redactPasswordFlag` at
the head of `cs`, returning the remainder after the match. After the
literal `--pas`, the optional `s` is consumed when present (if the
following separator is then missing, the alternative without the `s`
cannot match either, since the `s` itself is not a separator). -/
def matchPassAt (cs : List Char) : Option (List Char) :=
  match cs with
  | '-' :: '-' :: 'p' :: 'a' :: 's' :: rest =>
    match rest with
    | 's' :: rest2 => matchSepVal rest2
    | _ => matchSepVal rest
  | _ => none

/-- The scan of `ReplaceAllString`: at each position, if the pattern
matches there, emit the replacement text and continue after the match,
otherwise copy the character. The fuel is an upper bound on the number of
steps; each step consumes at least one character, so fuel equal to the
length of the input never runs out. -/
def redactScan : Nat → List Char → List Char
  | 0, cs => cs
  | _ + 1, [] => []
  | fuel + 1, c :: rest =>
    match matchPassAt (c :: rest) with
    | some remainder => "--pass [REDACTED]".data ++ redactScan fuel remainder
    | none => c :: redactScan fuel rest

/-- Embedding of `redactPasswordFlag` from `execution.go`:
`ReplaceAllString` of the pattern `(?m)\-\-pass?[ =]([^ ]+)` with the text
`--pass [REDACTED]`. -/
def redactPasswordFlag (cmd : String) : String :=
  ⟨redactScan cmd.data.length cmd.data⟩

/-- Holds when the redaction pattern matches at no position of `cs`. -/
def noPassMatch : List Char → Bool
  | [] => true
  | c :: rest => (matchPassAt (c :: rest)).isNone && noPassMatch rest

/-- One dynamic-argument token resolves to one output argument: a prefixed
token passes through literally (stripped of the marker), any other token
resolves to its stored value. -/
def resolvesTo (storage : Storage) (key out : String) : Prop :=
  (isPrefixedKey key = true ∧ out = stripKey key) ∨
  (isPrefixedKey key = false ∧ storage.get key = some out)

/-! ### Helper lemmas -/

theorem wantedErrs_strict_eq_nil (out : String) (l : List String) :
    wantedErrs out true l = [] ↔ ∀ s ∈ l, out = s := by
  induction l with
  | nil => simp [wantedErrs]
  | cons want rest ih =>
    by_cases h : out = want
    · rw [h] at ih ⊢
      simp [wantedErrs, ih]
    · simp [wantedErrs, h, ih]

theorem wantedErrs_lax_eq_nil (out : String) (l : List String) :
    wantedErrs out false l = [] ↔ ∀ s ∈ l, strContains out s = true := by
  induction l with
  | nil => simp [wantedErrs]
  | cons want rest ih =>
    by_cases h : strContains out want = true
    · simp [wantedErrs, h, ih]
    · simp [wantedErrs, eq_false_of_ne_true h, ih]

theorem assertWanted_eq_none (out : String) (w : Assertion) :
    assertWanted out w = none ↔ wantedErrs out w.Strict w.Output = [] := by
  unfold assertWanted
  by_cases h : wantedErrs out w.Strict w.Output = [] <;>
    simp [h, List.length_pos, List.length_eq_zero]

theorem dynamicErrs_eq (out : String) (storage : Storage) (keys : List String) :
    dynamicErrs out storage keys =
      (keys.filter fun k => ! strContains out ((storage.get k).getD k)).map
        (fun key =>
          s!"did not find dynamic key \x22{key}\x22 with value \x22{(storage.get key).getD key}\x22 in standard output: \x22{out}\x22") := by
  induction keys with
  | nil => simp [dynamicErrs]
  | cons key rest ih =>
    by_cases h : strContains out ((storage.get key).getD key) = false <;>
      simp [dynamicErrs, List.filter_cons, h, ih, eq_true_of_ne_false]

theorem dynamicErrs_eq_nil (out : String) (storage : Storage) (keys : List String) :
    dynamicErrs out storage keys = [] ↔
      ∀ k ∈ keys, strContains out ((storage.get k).getD k) = true := by
  induction keys with
  | nil => simp [dynamicErrs]
  | cons key rest ih =>
    by_cases h : strContains out ((storage.get key).getD key) = true
    · simp [dynamicErrs, h, ih]
    · simp [dynamicErrs, eq_false_of_ne_true h, ih]

theorem assertDynamic_eq_none (out : String) (keys : List String)
    (storage : Storage) :
    assertDynamic out keys storage = none ↔ dynamicErrs out storage keys = [] := by
  unfold assertDynamic
  by_cases h : dynamicErrs out storage keys = [] <;>
    simp [h, List.length_pos, List.length_eq_zero]

theorem replaceFirst_strip_marker (key : String)
    (h : strStartsWith key "strip_" = true) :
    replaceFirst key "strip_" "" = ⟨key.data.drop 6⟩ := by
  obtain ⟨d⟩ := key
  unfold strStartsWith at h
  cases d with
  | nil => simp [listIsPre] at h
  | cons c rest =>
    show String.mk (replaceFirstAux "strip_".data [] (c :: rest)) = _
    rw [replaceFirstAux, if_pos h]
    rfl

/-! ### Claim theorems -/

/-- C1: for every assertion specification and captured stdout/stderr/exit
error, if stderr contains any substring listed in `CanErrorWithMessage`
then `Ensure` returns nil, regardless of the exit error and of any Must,
Pattern, Dynamic or Not rules (and of the regular-expression engine): no
further checks run. -/
theorem ensure_known_failure_short_circuit
    (compile : String → Option Regex) (a : Assertions) (stdout stderr : String)
    (err : Option String) (storage : Storage) (args : String)
    (h : ∃ m ∈ a.CanErrorWithMessage, strContains stderr m = true) :
    a.Ensure compile stdout stderr err storage args = .ok none := by
  obtain ⟨m, hm, hc⟩ := h
  have hne : a.CanErrorWithMessage.length ≠ 0 := by
    intro h0
    rw [List.length_eq_zero] at h0
    rw [h0] at hm
    cases hm
  unfold Assertions.Ensure
  rw [if_neg (by tauto), if_pos (List.any_eq_true.mpr ⟨m, hm, hc⟩)]

/-- Witness for C1: an exit error with `WantErr = false`, a failing Must
rule, a failing Not rule and a non-compiling pattern are all ignored once
a known-failure substring occurs in stderr. -/
theorem ensure_known_failure_short_circuit_witness :
    Assertions.Ensure (fun _ => none)
      { WantErr := false, CanError := false, CanErrorWithMessage := ["known failure"],
        Must := { Output := ["MISSING"], Pattern := ["("] },
        Not := { Errors := ["boom"] } }
      "out" "boom: known failure happened" (some "exit status 1") [] "cmd" = .ok none :=
  ensure_known_failure_short_circuit _ _ _ _ _ _ _
    ⟨"known failure", by decide, by decide⟩

/-- C6: `Ensure` fails immediately with the error-expectation error
(embedding the rendered command line, the actual error, the `WantErr` flag
and the captured stderr) exactly when the presence of an exit error
differs from `WantErr`, `CanError` is false and `CanErrorWithMessage` is
empty; when `CanError` is set or `CanErrorWithMessage` is non-empty this
immediate failure never occurs. -/
theorem ensure_err_check_iff
    (compile : String → Option Regex) (a : Assertions) (stdout stderr : String)
    (err : Option String) (storage : Storage) (args : String) :
    a.Ensure compile stdout stderr err storage args
        = .ok (some (.errCheck args err a.WantErr stderr))
      ↔ (err.isSome ≠ a.WantErr ∧ a.CanError = false ∧ a.CanErrorWithMessage = []) := by
  unfold Assertions.Ensure
  by_cases hcond :
      (err.isSome ≠ a.WantErr) ∧ a.CanError = false ∧ a.CanErrorWithMessage.length = 0
  · rw [if_pos hcond]
    simp [hcond.1, hcond.2.1, List.length_eq_zero.mp hcond.2.2]
  · rw [if_neg hcond]
    constructor
    · intro h
      exfalso
      split at h
      · cases h
      · split at h
        · cases h
        · dsimp only at h
          split at h <;> simp at h
    · intro hrhs
      exact absurd ⟨hrhs.1, hrhs.2.1, by rw [hrhs.2.2]; rfl⟩ hcond

/-- Witness for C6: with an unexpected exit error and no tolerance flags,
`Ensure` returns exactly the immediate error-expectation failure. -/
theorem ensure_err_check_iff_witness :
    Assertions.Ensure (fun _ => none) {} "out" "err" (some "exit status 2") [] "mycmd"
      = .ok (some (.errCheck "mycmd" (some "exit status 2") false "err")) :=
  (ensure_err_check_iff (fun _ => none) {} "out" "err" (some "exit status 2") [] "mycmd").mpr
    (by decide)

/-- C5: with `Strict = true` the must-output check passes iff stdout is
exactly equal to every expected string in `Output` (substring containment
is never accepted), and with `Strict = false` it passes iff stdout
contains every expected string as a substring. -/
theorem assertWanted_strict_exact_lax_contains (w : Assertion) (out : String) :
    (w.Strict = true →
      (assertWanted out w = none ↔ ∀ s ∈ w.Output, out = s)) ∧
    (w.Strict = false →
      (assertWanted out w = none ↔ ∀ s ∈ w.Output, strContains out s = true)) := by
  constructor
  · intro hs
    rw [assertWanted_eq_none, hs, wantedErrs_strict_eq_nil]
  · intro hs
    rw [assertWanted_eq_none, hs, wantedErrs_lax_eq_nil]

/-- Witness for C5: in strict mode the expected output `"A\n"` against the
actual output `"A\n\n"` fails even though it is contained in it. -/
theorem assertWanted_strict_exact_lax_contains_witness :
    assertWanted "A\n\n" { Output := ["A\n"], Strict := true } ≠ none := by
  intro h
  have hall :=
    ((assertWanted_strict_exact_lax_contains
      { Output := ["A\n"], Strict := true } "A\n\n").1 rfl).mp h
  have := hall "A\n" (by decide)
  exact absurd this (by decide)

/-- C10: a Must assertion with `Strict = true` whose `Output` list holds
two distinct strings is unsatisfiable: the must-output check returns an
error for every possible stdout. -/
theorem assertWanted_strict_two_distinct_unsat (w : Assertion) (a b : String)
    (hs : w.Strict = true) (ha : a ∈ w.Output) (hb : b ∈ w.Output)
    (hab : a ≠ b) : ∀ out, assertWanted out w ≠ none := by
  intro out h
  rw [assertWanted_eq_none, hs, wantedErrs_strict_eq_nil] at h
  exact hab ((h a ha).symm.trans (h b hb))

/-- Witness for C10: the strict expected outputs `"A"` and `"B"` cannot
both hold, whatever stdout is. -/
theorem assertWanted_strict_two_distinct_unsat_witness :
    assertWanted "A" { Output := ["A", "B"], Strict := true } ≠ none :=
  assertWanted_strict_two_distinct_unsat
    { Output := ["A", "B"], Strict := true } "A" "B" rfl
    (by decide) (by decide) (by decide) "A"

/-- C7: for every key listed in `Must.Dynamic`, the expected value is the
stored value when the key is present and the literal key string otherwise;
the check passes iff every expected value occurs in stdout, and each miss
is accumulated as its own error message. -/
theorem assertDynamic_characterisation (out : String) (keys : List String)
    (storage : Storage) :
    (assertDynamic out keys storage = none ↔
      ∀ k ∈ keys, strContains out ((storage.get k).getD k) = true) ∧
    (∀ pe, assertDynamic out keys storage = some pe →
      pe.causes =
        (keys.filter fun k => ! strContains out ((storage.get k).getD k)).map
          (fun key =>
            s!"did not find dynamic key \x22{key}\x22 with value \x22{(storage.get key).getD key}\x22 in standard output: \x22{out}\x22")) := by
  constructor
  · rw [assertDynamic_eq_none, dynamicErrs_eq_nil]
  · intro pe hpe
    unfold assertDynamic at hpe
    dsimp only at hpe
    split at hpe
    · cases hpe
      exact dynamicErrs_eq out storage keys
    · cases hpe

/-- Witness for C7: a stored key checks its stored value, an absent key
checks its own literal text; both pass here, and the passing direction of
the characterisation applies. -/
theorem assertDynamic_characterisation_witness :
    assertDynamic "got avalue and literal" ["akey", "literal"]
      [("akey", "avalue")] = none :=
  (assertDynamic_characterisation "got avalue and literal" ["akey", "literal"]
    [("akey", "avalue")]).1.mpr (by decide)

/-- C4: a token beginning with `-` or `strip_` is passed through literally
(with a leading `strip_` removed) and never looked up in the store; any
other token is looked up, and an absent key aborts the whole resolution
with an error naming a genuinely missing key and no partial result list;
on success the output pairs up with the input tokens in order. -/
theorem parseDynamicArguments_spec (tokens : List String) (storage : Storage) :
    (∀ res, parseDynamicArguments tokens storage = .ok res →
      List.Forall₂ (resolvesTo storage) tokens res) ∧
    ((∃ k ∈ tokens, isPrefixedKey k = false ∧ storage.get k = none) →
      ∃ k ∈ tokens, isPrefixedKey k = false ∧ storage.get k = none ∧
        parseDynamicArguments tokens storage
          = .error s!"failed to obtain value of key {k}") ∧
    (∀ key rest, isPrefixedKey key = true →
      parseDynamicArguments (key :: rest) storage =
        match parseDynamicArguments rest storage with
        | .ok result => .ok (stripKey key :: result)
        | .error e => .error e) ∧
    (∀ key, strStartsWith key "strip_" = true → stripKey key = ⟨key.data.drop 6⟩) := by
  refine ⟨?_, ?_, ?_, ?_⟩
  · induction tokens generalizing storage with
    | nil =>
      intro res h
      cases h
      exact .nil
    | cons key rest ih =>
      intro res h
      unfold parseDynamicArguments at h
      by_cases hp : isPrefixedKey key = true
      · rw [if_pos hp] at h
        split at h
        · cases h
        · cases h
          exact .cons (Or.inl ⟨hp, rfl⟩) (ih _ _ (by assumption))
      · rw [if_neg hp] at h
        split at h
        · cases h
        · split at h
          · cases h
          · cases h
            refine .cons (Or.inr ⟨eq_false_of_ne_true hp, by assumption⟩) (ih _ _ (by assumption))
  · induction tokens generalizing storage with
    | nil =>
      rintro ⟨k, hk, -⟩
      cases hk
    | cons key rest ih =>
      rintro ⟨k, hk, hkp, hkn⟩
      by_cases hp : isPrefixedKey key = true
      · have hkr : k ∈ rest := by
          rcases List.mem_cons.mp hk with h | h
          · rw [h] at hkp
            rw [hp] at hkp
            cases hkp
          · exact h
        obtain ⟨k2, hk2, hk2p, hk2n, herr⟩ := ih storage ⟨k, hkr, hkp, hkn⟩
        refine ⟨k2, List.mem_cons_of_mem _ hk2, hk2p, hk2n, ?_⟩
        unfold parseDynamicArguments
        rw [if_pos hp, herr]
      · rcases hv : storage.get key with _ | v
        · refine ⟨key, List.mem_cons_self _ _, eq_false_of_ne_true hp, hv, ?_⟩
          unfold parseDynamicArguments
          rw [if_neg hp, hv]
        · have hkr : k ∈ rest := by
            rcases List.mem_cons.mp hk with h | h
            · rw [h, hv] at hkn
              cases hkn
            · exact h
          obtain ⟨k2, hk2, hk2p, hk2n, herr⟩ := ih storage ⟨k, hkr, hkp, hkn⟩
          refine ⟨k2, List.mem_cons_of_mem _ hk2, hk2p, hk2n, ?_⟩
          unfold parseDynamicArguments
          rw [if_neg hp, hv, herr]
  · intro key rest hp
    rcases hres : parseDynamicArguments rest storage with e | r <;>
      simp [parseDynamicArguments, hp, hres]
  · intro key h
    unfold stripKey
    rw [if_pos h]
    exact replaceFirst_strip_marker key h

/-- Witness for C4: `akey` resolves through the store, `strip_stripped_key`
and `-v` pass through literally, in order. -/
theorem parseDynamicArguments_spec_witness :
    List.Forall₂ (resolvesTo [("akey", "avalue")])
      ["akey", "strip_stripped_key", "-v"] ["avalue", "stripped_key", "-v"] :=
  (parseDynamicArguments_spec ["akey", "strip_stripped_key", "-v"]
    [("akey", "avalue")]).1 _ (by rfl)

/-- C2 (code bug): whenever any listed pattern fails to compile, the
pattern check does not return an accumulated error; it dereferences the
nil compiled regex in `re.FindStringIndex` and panics. -/
theorem assertPattern_panics_on_bad_pattern
    (compile : String → Option Regex) (out : String) (patterns : List String)
    (h : ∃ p ∈ patterns, compile p = none) :
    assertPattern compile out patterns = .panicked := by
  suffices hp : patternErrs compile out patterns = none by
    unfold assertPattern
    rw [hp]
  obtain ⟨p, hp, hc⟩ := h
  induction patterns with
  | nil => cases hp
  | cons q rest ih =>
    unfold patternErrs
    rcases List.mem_cons.mp hp with hq | hq
    · rw [hq] at hc
      rw [hc]
    · rcases hcq : compile q with _ | re
      · rfl
      · rw [ih hq]
        rfl

/-- Witness for C2: under a compiler that rejects the invalid pattern
`"("`, the pattern check panics instead of reporting the accumulated
compile error. -/
theorem assertPattern_panics_on_bad_pattern_witness :
    assertPattern (fun _ => none) "any output" ["("] = .panicked :=
  assertPattern_panics_on_bad_pattern (fun _ => none) "any output" ["("]
    ⟨"(", by decide, rfl⟩

/-- C3 (code bug): when no directory subtree anywhere contains a file with
the requested name, `FindBinaryPath` never returns: the parent of the
filesystem root is the root itself, so however much recursion depth (fuel)
is allowed, the function neither succeeds nor produces a not-found
error. -/
theorem findBinaryPath_no_match_diverges
    (walk : List String → String → Option String) (binary : String)
    (h : ∀ q, walk q binary = none) :
    ∀ fuel p, findBinaryPathFuel walk binary fuel p = none := by
  intro fuel
  induction fuel with
  | zero => intro p; rfl
  | succ n ih =>
    intro p
    unfold findBinaryPathFuel
    rw [h p, ih p.dropLast]
    rfl

/-- Witness for C3: with a walk that finds nothing, no amount of fuel
makes the search return from the directory `/home/proj`. -/
theorem findBinaryPath_no_match_diverges_witness :
    findBinaryPathFuel (fun _ _ => none) "mybinary" 10 ["home", "proj"] = none :=
  findBinaryPath_no_match_diverges (fun _ _ => none) "mybinary"
    (fun _ => rfl) 10 ["home", "proj"]

theorem redactScan_id (fuel : Nat) (cs : List Char)
    (h : noPassMatch cs = true) : redactScan fuel cs = cs := by
  induction fuel generalizing cs with
  | zero => rfl
  | succ n ih =>
    cases cs with
    | nil => rfl
    | cons c rest =>
      have hm : matchPassAt (c :: rest) = none := by
        unfold noPassMatch at h
        rcases hx : matchPassAt (c :: rest) with _ | r
        · rfl
        · rw [hx] at h
          simp at h
      have hr : noPassMatch rest = true := by
        unfold noPassMatch at h
        rw [hm] at h
        simpa using h
      unfold redactScan
      rw [hm, ih rest hr]

/-- C8 (counterexample): the redaction regex `\-\-pass?[ =]([^ ]+)` makes
the final `s` optional, so the input `--pas x`, which contains no `--pass`
flag-value pair at all, is rewritten rather than left unchanged. -/
theorem redactPasswordFlag_counterexample :
    redactPasswordFlag "--pas x" = "--pass [REDACTED]" ∧
    strContains "--pas x" "--pass" = false := by decide

/-- C8 (amended): redaction rewrites the value of a `--pass` flag in both
the space-separated and the equals-separated form to `--pass [REDACTED]`;
the same happens to the mistyped spelling `--pas`, since the regex makes
its final `s` optional; a string in which the pattern (`--pas` or
`--pass`, then a space or `=`, then a non-space value) matches at no
position is left unchanged. -/
theorem redactPasswordFlag_spec (s : String) :
    redactPasswordFlag
        "ecl --host http://somehost --user admin --pass MySuperSecretPassword platform info"
      = "ecl --host http://somehost --user admin --pass [REDACTED] platform info" ∧
    redactPasswordFlag
        "ecl --host http://somehost --user admin --pass=MySuperSecretPassword platform info"
      = "ecl --host http://somehost --user admin --pass [REDACTED] platform info" ∧
    redactPasswordFlag "--pas MySecret" = "--pass [REDACTED]" ∧
    (noPassMatch s.data = true → redactPasswordFlag s = s) := by
  refine ⟨by decide, by decide, by decide, ?_⟩
  intro h
  obtain ⟨d⟩ := s
  show String.mk (redactScan d.length d) = String.mk d
  rw [redactScan_id d.length d h]

/-- Witness for C8: a string without any occurrence of the redaction
pattern, such as a `--password`-style flag, is left unchanged. -/
theorem redactPasswordFlag_spec_witness :
    redactPasswordFlag "ecl --password=Secret info" = "ecl --password=Secret info" :=
  (redactPasswordFlag_spec "ecl --password=Secret info").2.2.2 (by decide)

/-- C9 (counterexample): with interactive stdin lines supplied and a
process-start failure that does not match the want-error flag, the runner
calls `t.Errorf`, a non-fatal failure — not `t.Fatalf` — so the case is
not aborted; the partial buffers and the start error are still
returned. -/
theorem runCommand_start_error_counterexample :
    (runCommand
        { pipeOk := true, startErr := some "no such file", stdout := "", stderr := "partial" }
        ["line1"] false).1.fatal = false ∧
    (runCommand
        { pipeOk := true, startErr := some "no such file", stdout := "", stderr := "partial" }
        ["line1"] false).1.errored = true ∧
    (runCommand
        { pipeOk := true, startErr := some "no such file", stdout := "", stderr := "partial" }
        ["line1"] false).2 = some ("", "partial", some "no such file") := by decide

/-- C9 (amended): with interactive stdin lines, a stdin pipe that opens,
and a start result whose error-ness differs from the want-error flag, the
runner reports a non-fatal test failure (`t.Errorf`: the case is marked
failed but not aborted, and the caller still runs the assertions) and
returns the partial stdout/stderr buffers together with the start
error. -/
theorem runCommand_start_error_nonfatal (proc : CmdModel)
    (interactive : List String) (wantErr : Bool)
    (hi : ¬ interactive.length = 0) (hp : proc.pipeOk = true)
    (hs : proc.startErr.isSome ≠ wantErr) :
    runCommand proc interactive wantErr =
      (⟨true, false⟩, some (proc.stdout, proc.stderr, proc.startErr)) := by
  unfold runCommand
  rw [if_neg hi, if_neg (by rw [hp]; exact fun h => Bool.noConfusion h), if_pos hs]

/-- Witness for C9: a concrete start failure with one interactive line. -/
theorem runCommand_start_error_nonfatal_witness :
    runCommand { startErr := some "fork failed", stderr := "oops" } ["y"] false
      = (⟨true, false⟩, some ("", "oops", some "fork failed")) :=
  runCommand_start_error_nonfatal
    { startErr := some "fork failed", stderr := "oops" } ["y"] false
    (by decide) rfl (by decide)

end Testcli
